import Mathlib

/-!
Shallow embedding of the entropy-collection and conditioning pipeline of
`random_webcam_rng_v3.9.7.py`, together with theorems settling the frozen
claims about it.

Modelling conventions:
* Bytes are `Nat` values (the source manipulates Python `bytes`); byte
  strings are `List Nat`.
* BLAKE2b is an oracle: every definition is parameterised by a function
  `B : Blake2bParams → List Nat → List Nat` standing for
  `hashlib.blake2b(data, key=…, digest_size=…, person=…).digest()`.
  hashlib's streaming interface (`h.update` chunks then digest) is the hash
  of the concatenation of the chunks, and is modelled that way.
* PIL image pixel extraction (`img.crop(...).convert('RGB').tobytes()`) is an
  oracle `crop : ProcessedFrame → Nat × Nat → Option (List Nat)`; `none`
  models the `(OSError, ValueError)` exception path the source catches.
* The async structure is irrelevant to the claims (all awaited operations
  are serialised under the db lock); functions are modelled as pure state
  transformers.
-/

namespace WebcamRng

/-- `NUM_SUCCESSFUL_CAMERAS_GOAL = 100` from the source constants. -/
def NUM_SUCCESSFUL_CAMERAS_GOAL : Nat := 100

/-- `NUM_RANDOMS_PER_FETCH = 10` from the source constants. -/
def NUM_RANDOMS_PER_FETCH : Nat := 10

/-- `CROP_SIZE = (100, 100)` from the source constants. -/
def CROP_SIZE : Nat × Nat := (100, 100)

/-- `RANDOM_BYTES = 64` from the source constants. -/
def RANDOM_BYTES : Nat := 64

/-- `FAILURE_THRESHOLD = 10` from the source constants. -/
def FAILURE_THRESHOLD : Nat := 10

/-- `MAX_MJPEG_SCAN_BYTES = 2 * 1024 * 1024` from the source constants. -/
def MAX_MJPEG_SCAN_BYTES : Nat := 2 * 1024 * 1024

/-- Python's `n.to_bytes(len, 'big')`: big-endian byte string of the given
length.  (The source only ever calls it on values that fit.) -/
def toBytesBE : Nat → Nat → List Nat
  | 0, _ => []
  | l + 1, n => toBytesBE l (n / 256) ++ [n % 256]

/-- Python's `int.from_bytes(bs, 'big')`. -/
def fromBytesBE (bs : List Nat) : Nat :=
  bs.foldl (fun a b => a * 256 + b) 0

/-- The sixteen lowercase hexadecimal digit characters, in value order. -/
def hexDigits : List Char := "0123456789abcdef".toList

/-- The lowercase hex character of a nibble. -/
def hexDigitChar (n : Nat) : Char := hexDigits.getD (n % 16) '0'

/-- Two lowercase hex characters of one byte (high nibble first). -/
def byteToHex (b : Nat) : List Char := [hexDigitChar (b / 16), hexDigitChar b]

/-- Python's `bytes.hex()` / hashlib's `hexdigest()`: lowercase hex string of
a byte string, no separators, no 0x. -/
def hexOfBytes (bs : List Nat) : String := ⟨(bs.map byteToHex).flatten⟩

/-- Parameter block of one `hashlib.blake2b(...)` invocation: `key=`,
`digest_size=`, `person=` (each as used by the source; a missing keyword
argument is the empty byte string / default). -/
structure Blake2bParams where
  key : List Nat
  digestSize : Nat
  person : List Nat
deriving DecidableEq

/-- The BLAKE2b oracle: maps a parameter block and input byte string to the
digest byte string. -/
abbrev Blake2b := Blake2bParams → List Nat → List Nat

/-- The ASCII bytes of the personalisation tag `b'crop-v1'`. -/
def cropV1 : List Nat := [99, 114, 111, 112, 45, 118, 49]

/-- The ASCII bytes of the personalisation tag `b'webcam-rng-v3'`. -/
def webcamRngV3 : List Nat := [119, 101, 98, 99, 97, 109, 45, 114, 110, 103, 45, 118, 51]

/-- `_derive_crop_xy(frame_digest, width, height, ctr)` from the source:
```
max_x = max(width - CROP_SIZE[0], 0) + 1
max_y = max(height - CROP_SIZE[1], 0) + 1
seed = hashlib.blake2b(frame_digest + ctr.to_bytes(8, 'big'),
                       key=_startup_secret, digest_size=8,
                       person=b'crop-v1').digest()
x = int.from_bytes(seed[:4], 'big') % max_x
y = int.from_bytes(seed[4:], 'big') % max_y
```
(`width`/`height` are PIL image dimensions, hence non-negative; Nat
subtraction already truncates at 0, the redundant `max … 0` mirrors the
source text). -/
def derive_crop_xy (B : Blake2b) (startup_secret frame_digest : List Nat)
    (width height ctr : Nat) : Nat × Nat :=
  let max_x := max (width - CROP_SIZE.1) 0 + 1
  let max_y := max (height - CROP_SIZE.2) 0 + 1
  let seed := B ⟨startup_secret, 8, cropV1⟩ (frame_digest ++ toBytesBE 8 ctr)
  (fromBytesBE (seed.take 4) % max_x, fromBytesBE (seed.drop 4) % max_y)

/-- Modelled from the spec's words (§4.6 step 2a), for comparison with
`derive_crop_xy`: "BLAKE2b keyed by StartupSecret, personalisation
`crop-v1`, digest length 8, input = frame fingerprint ‖ big-endian 8-byte
output index i.  Interpret the first four bytes as a big-endian unsigned
integer and reduce modulo (width − 100 + 1); the next four bytes likewise
modulo (height − 100 + 1)" — where "the next four bytes" of the 8-byte seed
are its last four bytes. -/
def derive_crop_xy_specModel (B : Blake2b) (startup_secret frame_digest : List Nat)
    (width height ctr : Nat) : Nat × Nat :=
  let seed := B ⟨startup_secret, 8, cropV1⟩ (frame_digest ++ toBytesBE 8 ctr)
  (fromBytesBE (seed.take 4) % (width - 100 + 1),
   fromBytesBE (seed.drop (seed.length - 4)) % (height - 100 + 1))

/-- The `ProcessedFrame` named tuple from the source.  The decoded PIL image
is represented by its dimensions (`image.width`, `image.height`); its pixel
content enters only through the `CropFn` oracle. -/
structure ProcessedFrame where
  width : Nat
  height : Nat
  size_bytes : Nat
  latency_micros : Nat
  digest : List Nat
deriving DecidableEq

/-- Oracle for `img.crop((x, y, x+100, y+100)).convert('RGB').tobytes()`:
given the frame and the crop origin `(x, y)`, either the RGB crop bytes or
`none` for the `(OSError, ValueError)` exception path the source catches. -/
abbrev CropFn := ProcessedFrame → Nat × Nat → Option (List Nat)

/-- The per-frame body of the inner loop of `_generate_and_store_numbers`
(lines 369–393).  State is `(chunks fed to the streaming hash, any_chunk)`.
`if max_x < 0 or max_y < 0: continue` is the dimension test (`width - 100`
is negative exactly when `width < 100`); on a crop/pixel exception the frame
is skipped; otherwise the crop bytes, the 4-byte big-endian encoded size and
the 4-byte big-endian latency are fed and `any_chunk` becomes true. -/
def condition_step (B : Blake2b) (crop : CropFn) (startup_secret : List Nat)
    (out_idx : Nat) (acc : List Nat × Bool) (frame : ProcessedFrame) :
    List Nat × Bool :=
  if frame.width < CROP_SIZE.1 ∨ frame.height < CROP_SIZE.2 then acc
  else
    match crop frame
        (derive_crop_xy B startup_secret frame.digest frame.width frame.height out_idx) with
    | none => acc
    | some cropBytes =>
        (acc.1 ++ cropBytes ++ toBytesBE 4 frame.size_bytes
           ++ toBytesBE 4 frame.latency_micros, true)

/-- One iteration of the outer loop of `_generate_and_store_numbers`
(lines 359–398): the streaming BLAKE2b keyed with the startup secret,
personalisation `webcam-rng-v3`, digest size 64, fed per-frame chunks; if
any chunk was fed, 64 OS-RNG bytes (`osTail out_idx`, the value
`os.urandom(64)` returns at this iteration) are appended and the hexdigest
is produced; otherwise no block is produced. -/
def condition_block (B : Blake2b) (crop : CropFn) (startup_secret : List Nat)
    (frames : List ProcessedFrame) (osTail : Nat → List Nat) (out_idx : Nat) :
    Option String :=
  if (frames.foldl (condition_step B crop startup_secret out_idx) ([], false)).2 then
    some (hexOfBytes (B ⟨startup_secret, RANDOM_BYTES, webcamRngV3⟩
      ((frames.foldl (condition_step B crop startup_secret out_idx) ([], false)).1
        ++ osTail out_idx)))
  else none

/-- The sequence of blocks one invocation of `_generate_and_store_numbers`
pushes: nothing below the goal count, otherwise the defined blocks of the 10
output indices in order. -/
def generated_blocks (B : Blake2b) (crop : CropFn) (startup_secret : List Nat)
    (frames : List ProcessedFrame) (osTail : Nat → List Nat) : List String :=
  if frames.length < NUM_SUCCESSFUL_CAMERAS_GOAL then []
  else (List.range NUM_RANDOMS_PER_FETCH).filterMap
    (condition_block B crop startup_secret frames osTail)

/-- The buffer state: the in-memory deque `_buffer` (front = left) and the
rows of the persistent `random_buffer` table (`hex_value TEXT PRIMARY KEY`,
so rows are pairwise distinct — maintained by insert-or-ignore). -/
structure BufState where
  buffer : List String
  store : List String
deriving DecidableEq

/-- The empty buffer state (fresh process, fresh database). -/
def emptyBuf : BufState := ⟨[], []⟩

/-- `_add_to_buffer_and_db(hex_value)`: append to the deque, then
`INSERT OR IGNORE` into the table (a duplicate of an existing primary key is
dropped). -/
def add_to_buffer_and_db (st : BufState) (hex_value : String) : BufState :=
  { buffer := st.buffer ++ [hex_value],
    store := if hex_value ∈ st.store then st.store else st.store ++ [hex_value] }

/-- `_pop_from_buffer_and_db()`: `None` on an empty deque (store untouched);
otherwise pop the front and `DELETE FROM random_buffer WHERE hex_value = ?`
(every row equal to the value is removed). -/
def pop_from_buffer_and_db (st : BufState) : Option String × BufState :=
  match st.buffer with
  | [] => (none, st)
  | value :: rest => (some value, ⟨rest, st.store.filter (fun r => r ≠ value)⟩)

/-- `_generate_and_store_numbers()` as a state transformer on the buffer:
given the collected frames (the result of `_collect_successful_frames`), if
the goal count is not met it returns immediately; otherwise for each of the
10 output indices it pushes the conditioned block when one is produced. -/
def generate_and_store_numbers (B : Blake2b) (crop : CropFn)
    (startup_secret : List Nat) (frames : List ProcessedFrame)
    (osTail : Nat → List Nat) (st : BufState) : BufState :=
  if frames.length < NUM_SUCCESSFUL_CAMERAS_GOAL then st
  else (List.range NUM_RANDOMS_PER_FETCH).foldl
    (fun st out_idx =>
      match condition_block B crop startup_secret frames osTail out_idx with
      | some hex => add_to_buffer_and_db st hex
      | none => st) st

/-- Appending to a `deque(maxlen=4)`: the new digest goes to the right, the
oldest entry is evicted from the left when the window is full. -/
def window_append (w : List (List Nat)) (d : List Nat) : List (List Nat) :=
  (w ++ [d]).drop (w.length + 1 - 4)

/-- The per-URL mutable state `_fetch_and_process_frame` touches: the
`_recent_digests[url]` window and the `_last_frame_digests[url]` entry
(`none` models an absent key of the defaultdict). -/
structure UrlState where
  window : List (List Nat)
  lastDigest : Option (List Nat)
deriving DecidableEq

/-- Oracle for `Image.open(io.BytesIO(image_data)); image.load()`: the
dimensions of the decoded image, or `none` for the
`(UnidentifiedImageError, OSError)` path. -/
abbrev DecodeFn := List Nat → Option (Nat × Nat)

/-- Lines 268–294 of `_fetch_and_process_frame`, after the format reader has
produced `image_data` (`none` when the reader failed; `if not image_data`
also rejects an empty byte string): fingerprint with unkeyed 16-byte
BLAKE2b; a
fingerprint already in the window is discarded (state untouched); otherwise
the window and last-digest entries are updated, the image is decoded, and a
`ProcessedFrame` is produced exactly when both dimensions reach `CROP_SIZE`.
Returns the `Optional[ProcessedFrame]` result and the new per-URL state. -/
def fetch_and_process (B : Blake2b) (decode : DecodeFn) (st : UrlState)
    (image_data : Option (List Nat)) (latency_micros : Nat) :
    Option ProcessedFrame × UrlState :=
  match image_data with
  | none => (none, st)
  | some data =>
    if data = [] then (none, st)
    else
    let current_digest := B ⟨[], 16, []⟩ data
    if current_digest ∈ st.window then (none, st)
    else
      let st' : UrlState := ⟨window_append st.window current_digest, some current_digest⟩
      match decode data with
      | none => (none, st')
      | some (w, h) =>
          if CROP_SIZE.1 ≤ w ∧ CROP_SIZE.2 ≤ h then
            (some ⟨w, h, data.length, latency_micros, current_digest⟩, st')
          else (none, st')

/-- Lookup in an association list (a Python dict keyed by URL): the value at
the first pair with the given key. -/
def lookupA {α : Type} : List (String × α) → String → Option α
  | [], _ => none
  | p :: rest, k => if p.1 = k then some p.2 else lookupA rest k

/-- `d[k] = v` on an association list: overwrite the first binding of `k`,
or append a new binding. -/
def setA {α : Type} (l : List (String × α)) (k : String) (v : α) :
    List (String × α) :=
  match l with
  | [] => [(k, v)]
  | p :: rest => if p.1 = k then (k, v) :: rest else p :: setA rest k v

/-- Lines 316–325 of `_collect_successful_frames`, the per-completion update
of `_failure_counts`: on a successful frame, `if url in _failure_counts:
_failure_counts[url] = 0`; on a failed outcome, `_failure_counts[url] += 1`
(the defaultdict creates a 0 entry on first access). -/
def on_completion (counts : List (String × Nat)) (url : String)
    (res : Option ProcessedFrame) : List (String × Nat) :=
  match res with
  | some _ => if (lookupA counts url).isSome then setA counts url 0 else counts
  | none => setA counts url ((lookupA counts url).getD 0 + 1)

/-- One completed fetch for `url`, as the collector observes it: run
`fetch_and_process` on the delivered body, then apply the failure-counter
update to the outcome.  Returns (new counts, new per-URL state, outcome). -/
def round_step (B : Blake2b) (decode : DecodeFn) (counts : List (String × Nat))
    (url : String) (st : UrlState) (image_data : Option (List Nat))
    (latency_micros : Nat) :
    List (String × Nat) × UrlState × Option ProcessedFrame :=
  let r := fetch_and_process B decode st image_data latency_micros
  (on_completion counts url r.1, r.2, r.1)

/-- The global registry state lines 329–336 of `_collect_successful_frames`
mutate: `_active_camera_urls`, `_failure_counts`, `_last_frame_digests`,
`_recent_digests` (the three dicts as association lists). -/
structure RegistryState where
  active : List String
  counts : List (String × Nat)
  lastDigests : List (String × List Nat)
  recentWindows : List (String × List (List Nat))
deriving DecidableEq

/-- Lines 329–336: compute `urls_to_disable = {url | count ≥
FAILURE_THRESHOLD}`; when non-empty, drop those URLs from the active list
and `pop(url, None)` them from the three dicts (removal when present, no-op
when absent — removal of every binding of the key models dict key
uniqueness). -/
def purge_failed (st : RegistryState) : RegistryState :=
  let urls_to_disable := (st.counts.filter (fun p => FAILURE_THRESHOLD ≤ p.2)).map (fun p => p.1)
  if urls_to_disable = [] then st
  else
    { active := st.active.filter (fun u => ¬ u ∈ urls_to_disable),
      counts := st.counts.filter (fun p => ¬ p.1 ∈ urls_to_disable),
      lastDigests := st.lastDigests.filter (fun p => ¬ p.1 ∈ urls_to_disable),
      recentWindows := st.recentWindows.filter (fun p => ¬ p.1 ∈ urls_to_disable) }

/-- The JPEG end-of-image marker `b'\xff\xd9'`. -/
def eoiMarker : List Nat := [255, 217]

/-- The JPEG start-of-image marker `b'\xff\xd8'`. -/
def soiMarker : List Nat := [255, 216]

/-- Python's `bytes.find(pat)` (with `pat in data` ≡ `find ≠ -1`): index of
the first occurrence of `pat` as a contiguous sub-sequence, if any. -/
def findSub (pat : List Nat) : List Nat → Option Nat
  | [] => if pat.isPrefixOf ([] : List Nat) then some 0 else none
  | a :: t =>
      if pat.isPrefixOf (a :: t) then some 0
      else (findSub pat t).map (· + 1)

/-- The loop of `_handle_mjpeg_stream` over the delivered chunks, with the
running `bytes_scanned` count and accumulated `data` buffer: a chunk first
bumps the count and fails the whole read when the count exceeds
`MAX_MJPEG_SCAN_BYTES`; otherwise it is appended and the buffer is searched
for EOI; on a hit the buffer is truncated after the marker and re-sliced
from the first SOI when one is present.  An exhausted stream yields `None`
(the `async for` ends and the function falls through). -/
def mjpeg_loop : List (List Nat) → Nat → List Nat → Option (List Nat)
  | [], _, _ => none
  | chunk :: rest, bytes_scanned, data =>
    if MAX_MJPEG_SCAN_BYTES < bytes_scanned + chunk.length then none
    else
      match findSub eoiMarker (data ++ chunk) with
      | some i =>
          match findSub soiMarker ((data ++ chunk).take (i + 2)) with
          | some j => some (((data ++ chunk).take (i + 2)).drop j)
          | none => some ((data ++ chunk).take (i + 2))
      | none => mjpeg_loop rest (bytes_scanned + chunk.length) (data ++ chunk)

/-- `_handle_mjpeg_stream(response)`: the body is delivered as a sequence of
chunks (`response.content.iter_chunked(1024)` yields chunks of at most 1024
bytes); the scan starts with an empty buffer and a zero count. -/
def handle_mjpeg_stream (chunks : List (List Nat)) : Option (List Nat) :=
  mjpeg_loop chunks 0 []

/-- The frame the spec's words describe for a successful MJPEG scan of the
whole stream `s`: the stream truncated two bytes past the first EOI marker,
re-sliced from the first SOI marker within that when present; `none` when
the stream holds no EOI at all. -/
def mjpeg_extract (s : List Nat) : Option (List Nat) :=
  match findSub eoiMarker s with
  | none => none
  | some i =>
      match findSub soiMarker (s.take (i + 2)) with
      | some j => some ((s.take (i + 2)).drop j)
      | none => some (s.take (i + 2))

/-- Total byte length of a chunk sequence. -/
def sumLen (chunks : List (List Nat)) : Nat := (chunks.map List.length).sum

/-- An operation on the output buffer, as exposed to the rest of the
program: `_add_to_buffer_and_db` of one value, or `_pop_from_buffer_and_db`. -/
inductive BufOp where
  | push (v : String)
  | pop
deriving DecidableEq

/-- Effect of one buffer operation on the buffer state. -/
def buf_step (st : BufState) : BufOp → BufState
  | BufOp.push v => add_to_buffer_and_db st v
  | BufOp.pop => (pop_from_buffer_and_db st).2

/-- Run a sequence of buffer operations from a state. -/
def run_buf_ops (st : BufState) (ops : List BufOp) : BufState :=
  ops.foldl buf_step st

/-- A trace of buffer operations is fresh when every pushed value is absent
from the in-memory deque at the moment it is pushed (the normal regime: the
conditioner pushes 64-byte keyed digests, which collide with negligible
probability). -/
def freshTrace : BufState → List BufOp → Bool
  | _, [] => true
  | st, BufOp.push v :: rest =>
      !(decide (v ∈ st.buffer)) && freshTrace (buf_step st (BufOp.push v)) rest
  | st, BufOp.pop :: rest => freshTrace (buf_step st BufOp.pop) rest

/-- Shared concrete BLAKE2b stand-in for witness evaluations: a digest of
the requested size whose byte depends on key and message. -/
def testB : Blake2b :=
  fun p m => List.replicate p.digestSize ((p.key.sum + m.sum) % 256)

/-- Shared concrete crop oracle whose pixel extraction always succeeds. -/
def testCropOk : CropFn := fun _ _ => some [1, 2, 3]

/-- Shared concrete crop oracle whose pixel extraction always raises. -/
def testCropFail : CropFn := fun _ _ => none

/-- Shared concrete validated frame (200×150, above the 100×100 minimum). -/
def testFrame : ProcessedFrame := ⟨200, 150, 1234, 5678, [9, 9]⟩

/-- Shared concrete stubbed OS-RNG tail: the same fixed 64 bytes at every
draw. -/
def testTail : Nat → List Nat := fun _ => List.replicate 64 3

/-- C1: For a fixed StartupSecret, a fixed list of processed frames (same
order, same decoded pixel data — the `crop` oracle — same fingerprints,
same encoded-size and latency metadata), and with the 64-byte OS-RNG tail
stubbed to a fixed value, two runs of the conditioning pass produce
bit-identical sequences of output blocks and an identical final buffer
state: the conditioner is a deterministic function of secret, frame list
and output index, with no other source of variation in the embedding. -/
theorem claim_C1_determinism (B : Blake2b) (crop : CropFn)
    (s s' : List Nat) (f f' : List ProcessedFrame) (t t' : Nat → List Nat)
    (st : BufState) (hs : s = s') (hf : f = f') (ht : t = t') :
    generated_blocks B crop s f t = generated_blocks B crop s' f' t' ∧
    generate_and_store_numbers B crop s f t st =
      generate_and_store_numbers B crop s' f' t' st := by
  subst hs; subst hf; subst ht; exact ⟨rfl, rfl⟩

/-- Witness for C1 at a concrete secret, frame list, stubbed tail and
buffer state. -/
theorem claim_C1_determinism_witness :
    generated_blocks testB testCropOk [5] [testFrame] testTail =
      generated_blocks testB testCropOk [5] [testFrame] testTail ∧
    generate_and_store_numbers testB testCropOk [5] [testFrame] testTail emptyBuf =
      generate_and_store_numbers testB testCropOk [5] [testFrame] testTail emptyBuf :=
  claim_C1_determinism testB testCropOk [5] [5] [testFrame] [testFrame]
    testTail testTail emptyBuf rfl rfl rfl

/-- C4: a collection round yielding strictly fewer than
`NUM_SUCCESSFUL_CAMERAS_GOAL = 100` validated frames does not invoke the
conditioner: no block is generated and the buffer state (in-memory deque
and persistent store alike) is returned unchanged. -/
theorem claim_C4_skip_undersized_round (B : Blake2b) (crop : CropFn)
    (secret : List Nat) (frames : List ProcessedFrame) (osTail : Nat → List Nat)
    (st : BufState) (h : frames.length < NUM_SUCCESSFUL_CAMERAS_GOAL) :
    generate_and_store_numbers B crop secret frames osTail st = st ∧
    generated_blocks B crop secret frames osTail = [] := by
  constructor
  · unfold generate_and_store_numbers
    rw [if_pos h]
  · unfold generated_blocks
    rw [if_pos h]

/-- Witness for C4: a round of 99 valid frames leaves the empty buffer
empty and generates no block. -/
theorem claim_C4_skip_undersized_round_witness :
    List.length (List.replicate 99 testFrame) < NUM_SUCCESSFUL_CAMERAS_GOAL ∧
    generate_and_store_numbers testB testCropOk [5] (List.replicate 99 testFrame)
        testTail emptyBuf = emptyBuf ∧
    generated_blocks testB testCropOk [5] (List.replicate 99 testFrame) testTail = [] := by
  refine ⟨by decide, ?_⟩
  have h := claim_C4_skip_undersized_round testB testCropOk [5]
    (List.replicate 99 testFrame) testTail emptyBuf (by decide)
  exact h

/-- C8: starting from an empty buffer and empty store, pushing a single hex
value and then popping returns exactly that value and leaves both the
in-memory deque and the persistent store empty. -/
theorem claim_C8_pop_after_push (v : String) :
    pop_from_buffer_and_db (add_to_buffer_and_db emptyBuf v) = (some v, emptyBuf) := by
  simp [pop_from_buffer_and_db, add_to_buffer_and_db, emptyBuf]

/-- C9: the crop-coordinate derivation is total for all non-negative widths,
heights and output counters (including images smaller than the 100×100
crop): both moduli `max(width − 100, 0) + 1` and `max(height − 100, 0) + 1`
are at least 1 — so the reductions never divide by zero — and the result
`(x, y)` satisfies `x < max(width − 100, 0) + 1` and
`y < max(height − 100, 0) + 1`. -/
theorem claim_C9_crop_xy_total (B : Blake2b) (secret digest : List Nat)
    (width height ctr : Nat) :
    0 < max (width - CROP_SIZE.1) 0 + 1 ∧
    0 < max (height - CROP_SIZE.2) 0 + 1 ∧
    (derive_crop_xy B secret digest width height ctr).1 <
      max (width - CROP_SIZE.1) 0 + 1 ∧
    (derive_crop_xy B secret digest width height ctr).2 <
      max (height - CROP_SIZE.2) 0 + 1 := by
  refine ⟨Nat.succ_pos _, Nat.succ_pos _, ?_, ?_⟩
  · exact Nat.mod_lt _ (Nat.succ_pos _)
  · exact Nat.mod_lt _ (Nat.succ_pos _)

/-- C5: for frames of width ≥ 100 and height ≥ 100 (where the BLAKE2b seed
has its nominal 8-byte length), the source's `_derive_crop_xy` computes
exactly the coordinates the spec describes: seed = keyed BLAKE2b with
personalisation `crop-v1` and digest length 8 over fingerprint ‖ be64(i);
x = first four seed bytes (big-endian) mod (width − 100 + 1); y = last four
seed bytes (big-endian) mod (height − 100 + 1). -/
theorem claim_C5_crop_xy_formula (B : Blake2b) (secret digest : List Nat)
    (width height ctr : Nat) (_hw : 100 ≤ width) (_hh : 100 ≤ height)
    (hlen : (B ⟨secret, 8, cropV1⟩ (digest ++ toBytesBE 8 ctr)).length = 8) :
    derive_crop_xy B secret digest width height ctr =
      derive_crop_xy_specModel B secret digest width height ctr := by
  unfold derive_crop_xy derive_crop_xy_specModel
  simp only [CROP_SIZE, Nat.max_zero, hlen]

/-- Witness for C5 at a concrete oracle, secret, fingerprint and frame
dimensions. -/
theorem claim_C5_crop_xy_formula_witness :
    (100 ≤ 200 ∧ 100 ≤ 150 ∧
      (testB ⟨[5], 8, cropV1⟩ ([9, 9] ++ toBytesBE 8 0)).length = 8) ∧
    derive_crop_xy testB [5] [9, 9] 200 150 0 =
      derive_crop_xy_specModel testB [5] [9, 9] 200 150 0 :=
  ⟨⟨by decide, by decide, by decide⟩,
    claim_C5_crop_xy_formula testB [5] [9, 9] 200 150 0
      (by decide) (by decide) (by decide)⟩

/-- A push of a value absent from the deque keeps the store equal to the
deque and keeps the deque duplicate-free. -/
theorem add_preserves_sync (st : BufState) (v : String)
    (hs : st.store = st.buffer) (hn : st.buffer.Nodup) (hv : v ∉ st.buffer) :
    (add_to_buffer_and_db st v).store = (add_to_buffer_and_db st v).buffer ∧
    (add_to_buffer_and_db st v).buffer.Nodup := by
  unfold add_to_buffer_and_db
  constructor
  · simp only [hs, if_neg hv]
  · simp [List.nodup_append, hn, hv]

/-- A pop keeps the store equal to the deque and keeps the deque
duplicate-free. -/
theorem pop_preserves_sync (st : BufState)
    (hs : st.store = st.buffer) (hn : st.buffer.Nodup) :
    ((pop_from_buffer_and_db st).2).store = ((pop_from_buffer_and_db st).2).buffer ∧
    ((pop_from_buffer_and_db st).2).buffer.Nodup := by
  unfold pop_from_buffer_and_db
  cases hb : st.buffer with
  | nil =>
    exact ⟨hs, hn⟩
  | cons v tl =>
    rw [hb] at hs hn
    rw [List.nodup_cons] at hn
    constructor
    · show List.filter _ st.store = tl
      rw [hs]
      have h1 : List.filter (fun r => decide (r ≠ v)) (v :: tl) =
          List.filter (fun r => decide (r ≠ v)) tl := by
        simp [List.filter_cons]
      rw [h1]
      apply List.filter_eq_self.mpr
      intro a ha
      simp only [decide_eq_true_eq]
      exact fun he => hn.1 (he ▸ ha)
    · exact hn.2

/-- Along a fresh trace (every pushed value absent from the deque at push
time), the store stays equal to the deque — as lists, hence as multisets —
and the deque stays duplicate-free. -/
theorem buf_sync_invariant (ops : List BufOp) :
    ∀ st : BufState, st.store = st.buffer → st.buffer.Nodup →
      freshTrace st ops = true →
      (run_buf_ops st ops).store = (run_buf_ops st ops).buffer ∧
      (run_buf_ops st ops).buffer.Nodup := by
  induction ops with
  | nil => exact fun st hs hn _ => ⟨hs, hn⟩
  | cons op rest ih =>
    intro st hs hn hf
    cases op with
    | push v =>
      simp only [freshTrace, Bool.and_eq_true, Bool.not_eq_true',
        decide_eq_false_iff_not] at hf
      obtain ⟨hv, hf⟩ := hf
      have h := add_preserves_sync st v hs hn hv
      exact ih (buf_step st (BufOp.push v)) h.1 h.2 hf
    | pop =>
      simp only [freshTrace] at hf
      have h := pop_preserves_sync st hs hn
      exact ih (buf_step st BufOp.pop) h.1 h.2 hf

/-- C7 (amended): after any completed sequence of buffer operations starting
from equal empty states, the multiset of hex strings in the in-memory deque
equals the multiset of rows in the persistent `random_buffer` table,
*provided no push inserts a value already present in the deque* (the
`INSERT OR IGNORE` of the store silently drops such a duplicate while the
deque keeps it, so the unrestricted claim fails — see the counterexample). -/
theorem claim_C7_buffer_store_sync (ops : List BufOp)
    (h : freshTrace emptyBuf ops = true) :
    Multiset.ofList (run_buf_ops emptyBuf ops).buffer =
      Multiset.ofList (run_buf_ops emptyBuf ops).store := by
  have hinv := buf_sync_invariant ops emptyBuf rfl List.nodup_nil h
  rw [hinv.1]

/-- Witness for C7 on a concrete fresh trace: push two distinct values, pop
one, push another. -/
theorem claim_C7_buffer_store_sync_witness :
    freshTrace emptyBuf [BufOp.push "a", BufOp.pop, BufOp.push "b"] = true ∧
    Multiset.ofList
        (run_buf_ops emptyBuf [BufOp.push "a", BufOp.pop, BufOp.push "b"]).buffer =
      Multiset.ofList
        (run_buf_ops emptyBuf [BufOp.push "a", BufOp.pop, BufOp.push "b"]).store :=
  ⟨by decide, claim_C7_buffer_store_sync [BufOp.push "a", BufOp.pop, BufOp.push "b"]
    (by decide)⟩

/-- Counterexample to C7 as stated: starting from equal empty states,
pushing the same hex value twice leaves the deque holding two copies but the
store (whose `INSERT OR IGNORE` drops the duplicate primary key) holding
one, so the multisets differ after a completed operation sequence. -/
theorem claim_C7_counterexample :
    Multiset.ofList (run_buf_ops emptyBuf [BufOp.push "a", BufOp.push "a"]).buffer ≠
      Multiset.ofList (run_buf_ops emptyBuf [BufOp.push "a", BufOp.push "a"]).store := by
  decide

/-- C2 (amended): a fetched image whose 128-bit fingerprint is already in
the URL's recent-digest window is silently discarded — no `ProcessedFrame`
is produced and the per-URL window and last-digest state are untouched —
but the collector *does* treat the `None` outcome as a failure: the URL's
failure counter is incremented by that fetch round outcome. -/
theorem claim_C2_duplicate_counts_as_failure (B : Blake2b) (decode : DecodeFn)
    (counts : List (String × Nat)) (url : String) (st : UrlState)
    (data : List Nat) (latency_micros : Nat)
    (hdup : B ⟨[], 16, []⟩ data ∈ st.window) :
    round_step B decode counts url st (some data) latency_micros =
      (setA counts url ((lookupA counts url).getD 0 + 1), st, none) := by
  unfold round_step fetch_and_process on_completion
  by_cases hE : data = []
  · simp only [if_pos hE]
  · simp only [if_neg hE, if_pos hdup]

/-- Witness for C2 (amended) at a concrete oracle, window and counter
state. -/
theorem claim_C2_duplicate_counts_as_failure_witness :
    (testB ⟨[], 16, []⟩ [1, 2] ∈ (⟨[List.replicate 16 3], none⟩ : UrlState).window) ∧
    round_step testB (fun _ => some (200, 150)) [("u", 2)] "u"
        ⟨[List.replicate 16 3], none⟩ (some [1, 2]) 7 =
      (setA [("u", 2)] "u" ((lookupA [("u", 2)] "u").getD 0 + 1),
        ⟨[List.replicate 16 3], none⟩, none) :=
  ⟨by decide,
    claim_C2_duplicate_counts_as_failure testB (fun _ => some (200, 150))
      [("u", 2)] "u" ⟨[List.replicate 16 3], none⟩ [1, 2] 7 (by decide)⟩

/-- Counterexample to C2 as stated: a concrete duplicate fetch — the
fingerprint of the delivered bytes is already in the URL's window — is
discarded (outcome `none`, per-URL state unchanged), yet the URL's failure
counter goes from 2 to 3: the duplicate IS treated as a failure by that
fetch round outcome. -/
theorem claim_C2_counterexample :
    (testB ⟨[], 16, []⟩ [1, 2] ∈ (⟨[List.replicate 16 3], none⟩ : UrlState).window) ∧
    (round_step testB (fun _ => some (200, 150)) [("u", 2)] "u"
        ⟨[List.replicate 16 3], none⟩ (some [1, 2]) 7).2.2 = none ∧
    (round_step testB (fun _ => some (200, 150)) [("u", 2)] "u"
        ⟨[List.replicate 16 3], none⟩ (some [1, 2]) 7).2.1 =
      ⟨[List.replicate 16 3], none⟩ ∧
    (round_step testB (fun _ => some (200, 150)) [("u", 2)] "u"
        ⟨[List.replicate 16 3], none⟩ (some [1, 2]) 7).1 = [("u", 3)] := by
  decide

/-- Filtering out every pair whose key is in the removal set makes lookup of
a removed key fail. -/
theorem lookupA_filter_out {α : Type} (ex : List String) (k : String)
    (hk : k ∈ ex) :
    ∀ l : List (String × α), lookupA (l.filter (fun p => ¬ p.1 ∈ ex)) k = none := by
  intro l
  induction l with
  | nil => rfl
  | cons p t ih =>
    by_cases hp : p.1 ∈ ex
    · simpa [List.filter_cons, hp] using ih
    · have hne : ¬ (p.1 = k) := fun he => hp (he ▸ hk)
      simpa [List.filter_cons, hp, lookupA, hne] using ih

/-- Removing a set of keys none of which is bound in the association list is
a no-op. -/
theorem filter_keep_of_absent {α : Type} (ex : List String) (url : String)
    (hex : ∀ e ∈ ex, e = url) :
    ∀ l : List (String × α), lookupA l url = none →
      l.filter (fun p => ¬ p.1 ∈ ex) = l := by
  intro l
  induction l with
  | nil => intro _; rfl
  | cons p t ih =>
    intro hl
    unfold lookupA at hl
    by_cases hp : p.1 = url
    · simp [hp] at hl
    · rw [if_neg hp] at hl
      have hmem : ¬ p.1 ∈ ex := fun hmem => hp (hex _ hmem)
      have hcond : (decide (¬ p.1 ∈ ex)) = true := by simp [hmem]
      rw [List.filter_cons, if_pos (by simpa using hcond), ih hl]

/-- A key bound (first) to a value at or above the threshold is in the
disable set. -/
theorem mem_disable_of_lookup (counts : List (String × Nat)) (url : String)
    (c : Nat) (hc : lookupA counts url = some c) (hth : FAILURE_THRESHOLD ≤ c) :
    url ∈ (counts.filter (fun p => FAILURE_THRESHOLD ≤ p.2)).map (fun p => p.1) := by
  induction counts with
  | nil => simp [lookupA] at hc
  | cons p t ih =>
    unfold lookupA at hc
    by_cases hp : p.1 = url
    · rw [if_pos hp] at hc
      have hpc : p.2 = c := by injection hc
      have hcond : FAILURE_THRESHOLD ≤ p.2 := hpc ▸ hth
      rw [List.filter_cons, if_pos (by simpa using hcond), List.map_cons, hp]
      exact List.mem_cons_self _ _
    · rw [if_neg hp] at hc
      by_cases hq : FAILURE_THRESHOLD ≤ p.2
      · rw [List.filter_cons, if_pos (by simpa using hq), List.map_cons]
        exact List.mem_cons_of_mem _ (ih hc)
      · rw [List.filter_cons, if_neg (by simpa using hq)]
        exact ih hc

/-- C10: disabling a URL that never produced a successful validated frame —
its failure count reached the threshold while it has no entry in the
last-digest map or the recent-digest windows — completes (the embedding is
total, matching the safe `dict.pop(url, None)` cleanup): the end-of-round
purge removes the URL from the active registry and from the failure-counter
map, lookups of the URL in all auxiliary maps fail afterwards, and when no
other URL is disabled in the same purge the two auxiliary maps are left
entirely unchanged (the removal is a no-op on them). -/
theorem claim_C10_disable_never_successful (st : RegistryState) (url : String)
    (c : Nat) (hc : lookupA st.counts url = some c) (hth : FAILURE_THRESHOLD ≤ c)
    (hld : lookupA st.lastDigests url = none)
    (hrw : lookupA st.recentWindows url = none)
    (honly : ∀ p ∈ st.counts, FAILURE_THRESHOLD ≤ p.2 → p.1 = url) :
    ¬ url ∈ (purge_failed st).active ∧
    lookupA (purge_failed st).counts url = none ∧
    lookupA (purge_failed st).lastDigests url = none ∧
    lookupA (purge_failed st).recentWindows url = none ∧
    (purge_failed st).lastDigests = st.lastDigests ∧
    (purge_failed st).recentWindows = st.recentWindows := by
  have hmem := mem_disable_of_lookup st.counts url c hc hth
  have hex : ∀ e ∈ (st.counts.filter (fun p => FAILURE_THRESHOLD ≤ p.2)).map
      (fun p => p.1), e = url := by
    intro e he
    obtain ⟨p, hp, rfl⟩ := List.mem_map.mp he
    exact honly p (List.mem_of_mem_filter hp) (by simpa using List.of_mem_filter hp)
  have hne : (st.counts.filter (fun p => FAILURE_THRESHOLD ≤ p.2)).map
      (fun p => p.1) ≠ [] := List.ne_nil_of_mem hmem
  unfold purge_failed
  rw [if_neg hne]
  refine ⟨?_, ?_, ?_, ?_, ?_, ?_⟩
  · intro hact
    have h2 := (List.mem_filter.mp hact).2
    simp only [decide_eq_true_eq] at h2
    exact h2 hmem
  · exact lookupA_filter_out _ url hmem st.counts
  · exact lookupA_filter_out _ url hmem st.lastDigests
  · exact lookupA_filter_out _ url hmem st.recentWindows
  · exact filter_keep_of_absent _ url hex st.lastDigests hld
  · exact filter_keep_of_absent _ url hex st.recentWindows hrw

/-- Witness for C10 on a concrete registry: URL `u` has failure count 10 and
no digest history; `v` stays active with its history intact. -/
theorem claim_C10_disable_never_successful_witness :
    ¬ "u" ∈ (purge_failed ⟨["u", "v"], [("u", 10), ("v", 2)], [("v", [1])],
        [("v", [[2]])]⟩).active ∧
    lookupA (purge_failed ⟨["u", "v"], [("u", 10), ("v", 2)], [("v", [1])],
        [("v", [[2]])]⟩ : RegistryState).counts "u" = none ∧
    lookupA (purge_failed ⟨["u", "v"], [("u", 10), ("v", 2)], [("v", [1])],
        [("v", [[2]])]⟩ : RegistryState).lastDigests "u" = none ∧
    lookupA (purge_failed ⟨["u", "v"], [("u", 10), ("v", 2)], [("v", [1])],
        [("v", [[2]])]⟩ : RegistryState).recentWindows "u" = none ∧
    (purge_failed ⟨["u", "v"], [("u", 10), ("v", 2)], [("v", [1])],
        [("v", [[2]])]⟩ : RegistryState).lastDigests = [("v", [1])] ∧
    (purge_failed ⟨["u", "v"], [("u", 10), ("v", 2)], [("v", [1])],
        [("v", [[2]])]⟩ : RegistryState).recentWindows = [("v", [[2]])] := by
  have h := claim_C10_disable_never_successful
    ⟨["u", "v"], [("u", 10), ("v", 2)], [("v", [1])], [("v", [[2]])]⟩ "u" 10
    (by decide) (by decide) (by decide) (by decide) (by decide)
  exact h

/-- The per-frame conditioning step never resets the `any_chunk` flag. -/
theorem condition_step_flag_mono (B : Blake2b) (crop : CropFn) (s : List Nat)
    (i : Nat) (acc : List Nat × Bool) (f : ProcessedFrame) (h : acc.2 = true) :
    (condition_step B crop s i acc f).2 = true := by
  unfold condition_step
  by_cases hd : f.width < CROP_SIZE.1 ∨ f.height < CROP_SIZE.2
  · rw [if_pos hd]; exact h
  · rw [if_neg hd]
    cases crop f (derive_crop_xy B s f.digest f.width f.height i) with
    | none => exact h
    | some bs => rfl

/-- Folding the conditioning step over any frame list keeps a true
`any_chunk` flag true. -/
theorem condition_foldl_flag_mono (B : Blake2b) (crop : CropFn) (s : List Nat)
    (i : Nat) (frames : List ProcessedFrame) :
    ∀ acc : List Nat × Bool, acc.2 = true →
      (frames.foldl (condition_step B crop s i) acc).2 = true := by
  induction frames with
  | nil => exact fun acc h => h
  | cons f t ih =>
    intro acc h
    rw [List.foldl_cons]
    exact ih _ (condition_step_flag_mono B crop s i acc f h)

/-- With a non-empty frame list whose every frame meets the 100×100 minimum
and a crop oracle that never raises, every output index produces a block. -/
theorem condition_block_isSome (B : Blake2b) (crop : CropFn) (s : List Nat)
    (frames : List ProcessedFrame) (t : Nat → List Nat) (i : Nat)
    (hne : frames ≠ [])
    (hvalid : ∀ f ∈ frames, CROP_SIZE.1 ≤ f.width ∧ CROP_SIZE.2 ≤ f.height)
    (hcrop : ∀ f p, (crop f p).isSome) :
    (condition_block B crop s frames t i).isSome := by
  cases frames with
  | nil => exact absurd rfl hne
  | cons f rest =>
    obtain ⟨bs, hbs⟩ := Option.isSome_iff_exists.mp
      (hcrop f (derive_crop_xy B s f.digest f.width f.height i))
    have hv := hvalid f (List.mem_cons_self _ _)
    have hd : ¬ (f.width < CROP_SIZE.1 ∨ f.height < CROP_SIZE.2) := by
      rcases hv with ⟨h1, h2⟩
      push_neg
      exact ⟨h1, h2⟩
    have hstep : condition_step B crop s i ([], false) f =
        (([] : List Nat) ++ bs ++ toBytesBE 4 f.size_bytes
          ++ toBytesBE 4 f.latency_micros, true) := by
      unfold condition_step
      rw [if_neg hd, hbs]
    unfold condition_block
    rw [List.foldl_cons, hstep,
      if_pos (condition_foldl_flag_mono B crop s i rest _ rfl)]
    rfl

/-- Folding the push-if-some loop body appends exactly the defined blocks to
the deque. -/
theorem foldl_push_buffer (g : Nat → Option String) :
    ∀ (l : List Nat) (st : BufState),
      (l.foldl (fun st i =>
          match g i with
          | some hex => add_to_buffer_and_db st hex
          | none => st) st).buffer = st.buffer ++ l.filterMap g := by
  intro l
  induction l with
  | nil => intro st; simp
  | cons a t ih =>
    intro st
    rw [List.foldl_cons, List.filterMap_cons]
    cases hg : g a with
    | none => simpa using ih st
    | some b =>
      show (List.foldl _ (add_to_buffer_and_db st b) t).buffer =
        st.buffer ++ (b :: List.filterMap g t)
      rw [ih (add_to_buffer_and_db st b)]
      simp [add_to_buffer_and_db]

/-- A `filterMap` whose function is defined on every element preserves the
length. -/
theorem length_filterMap_of_isSome (g : Nat → Option String) :
    ∀ l : List Nat, (∀ a ∈ l, (g a).isSome) → (l.filterMap g).length = l.length := by
  intro l
  induction l with
  | nil => intro _; rfl
  | cons a t ih =>
    intro h
    obtain ⟨b, hb⟩ := Option.isSome_iff_exists.mp (h a (List.mem_cons_self _ _))
    rw [List.filterMap_cons, hb]
    simp [ih (fun x hx => h x (List.mem_cons_of_mem _ hx))]

/-- Every nibble character is one of the sixteen lowercase hex digits. -/
theorem hexDigitChar_mem (n : Nat) : hexDigitChar n ∈ hexDigits := by
  unfold hexDigitChar
  have h : n % 16 < hexDigits.length := Nat.mod_lt _ (by decide)
  rw [List.getD_eq_getElem _ _ h]
  exact List.getElem_mem h

/-- The characters of `hexOfBytes` are the flattened per-byte digit pairs. -/
theorem hexOfBytes_data (bs : List Nat) :
    (hexOfBytes bs).data = (bs.map byteToHex).flatten := rfl

/-- A hex dump is twice as long as the byte string. -/
theorem hexOfBytes_length (bs : List Nat) :
    (hexOfBytes bs).length = 2 * bs.length := by
  show (hexOfBytes bs).data.length = 2 * bs.length
  rw [hexOfBytes_data]
  induction bs with
  | nil => rfl
  | cons b t ih =>
    simp only [List.map_cons, List.flatten_cons, List.length_append, ih,
      List.length_cons, byteToHex, List.length_cons, List.length_nil]
    omega

/-- Every character of a hex dump is a lowercase hex digit. -/
theorem hexOfBytes_chars (bs : List Nat) :
    ∀ c ∈ (hexOfBytes bs).data, c ∈ hexDigits := by
  rw [hexOfBytes_data]
  induction bs with
  | nil => intro c hc; simp at hc
  | cons b t ih =>
    intro c hc
    rw [List.map_cons, List.flatten_cons] at hc
    rcases List.mem_append.mp hc with h | h
    · unfold byteToHex at h
      rcases List.mem_cons.mp h with rfl | h2
      · exact hexDigitChar_mem _
      · rcases List.mem_cons.mp h2 with rfl | h3
        · exact hexDigitChar_mem _
        · simp at h3
    · exact ih c h

/-- Every generated block is the hex dump of a 64-byte keyed digest:
128 characters, all lowercase hex. -/
theorem generated_blocks_format (B : Blake2b) (crop : CropFn) (s : List Nat)
    (frames : List ProcessedFrame) (t : Nat → List Nat)
    (hB : ∀ p m, (B p m).length = p.digestSize) :
    ∀ b ∈ generated_blocks B crop s frames t,
      b.length = 128 ∧ ∀ c ∈ b.data, c ∈ hexDigits := by
  intro b hb
  unfold generated_blocks at hb
  split at hb
  · simp at hb
  · obtain ⟨i, _, hgi⟩ := List.mem_filterMap.mp hb
    unfold condition_block at hgi
    split at hgi
    · have hbeq : b = hexOfBytes (B ⟨s, RANDOM_BYTES, webcamRngV3⟩
          ((frames.foldl (condition_step B crop s i) ([], false)).1 ++ t i)) := by
        injection hgi with h
        exact h.symm
      subst hbeq
      constructor
      · rw [hexOfBytes_length, hB]
        rfl
      · exact hexOfBytes_chars _
    · exact absurd hgi (by simp)

/-- C3 (amended): for every collection round that yields at least
`NUM_SUCCESSFUL_CAMERAS_GOAL` validated frames (each with width ≥ 100 and
height ≥ 100), *and whose pixel extraction succeeds* (the source skips a
frame whose crop raises, and emits a block only when at least one frame
contributed — so the claim needs crops to succeed), the conditioner pushes
exactly `NUM_RANDOMS_PER_FETCH = 10` output blocks to the buffer, and every
pushed block is a lowercase hex string of exactly 128 characters with no
separators or prefix (its characters are the 16 lowercase hex digits). -/
theorem claim_C3_goal_round_output (B : Blake2b) (crop : CropFn)
    (s : List Nat) (frames : List ProcessedFrame) (t : Nat → List Nat)
    (st : BufState)
    (hB : ∀ p m, (B p m).length = p.digestSize)
    (hgoal : NUM_SUCCESSFUL_CAMERAS_GOAL ≤ frames.length)
    (hvalid : ∀ f ∈ frames, CROP_SIZE.1 ≤ f.width ∧ CROP_SIZE.2 ≤ f.height)
    (hcrop : ∀ f p, (crop f p).isSome) :
    (generate_and_store_numbers B crop s frames t st).buffer =
      st.buffer ++ generated_blocks B crop s frames t ∧
    (generated_blocks B crop s frames t).length = NUM_RANDOMS_PER_FETCH ∧
    ∀ b ∈ generated_blocks B crop s frames t,
      b.length = 128 ∧ ∀ c ∈ b.data, c ∈ hexDigits := by
  have hne : frames ≠ [] := by
    intro h
    rw [h] at hgoal
    exact absurd hgoal (by decide)
  have hnotlt : ¬ frames.length < NUM_SUCCESSFUL_CAMERAS_GOAL := Nat.not_lt.mpr hgoal
  refine ⟨?_, ?_, generated_blocks_format B crop s frames t hB⟩
  · unfold generate_and_store_numbers generated_blocks
    rw [if_neg hnotlt, if_neg hnotlt]
    exact foldl_push_buffer _ _ st
  · unfold generated_blocks
    rw [if_neg hnotlt]
    rw [length_filterMap_of_isSome _ _
      (fun i _ => condition_block_isSome B crop s frames t i hne hvalid hcrop)]
    exact List.length_range _

/-- Witness for C3 (amended): 100 copies of the 200×150 test frame with an
always-succeeding crop oracle push 10 blocks of 128 lowercase hex chars onto
the empty buffer. -/
theorem claim_C3_goal_round_output_witness :
    (generate_and_store_numbers testB testCropOk [5]
        (List.replicate 100 testFrame) testTail emptyBuf).buffer =
      emptyBuf.buffer ++ generated_blocks testB testCropOk [5]
        (List.replicate 100 testFrame) testTail ∧
    (generated_blocks testB testCropOk [5]
        (List.replicate 100 testFrame) testTail).length = NUM_RANDOMS_PER_FETCH ∧
    ∀ b ∈ generated_blocks testB testCropOk [5]
        (List.replicate 100 testFrame) testTail,
      b.length = 128 ∧ ∀ c ∈ b.data, c ∈ hexDigits :=
  claim_C3_goal_round_output testB testCropOk [5]
    (List.replicate 100 testFrame) testTail emptyBuf
    (fun p m => by simp [testB])
    (by simp [NUM_SUCCESSFUL_CAMERAS_GOAL])
    (fun f hf => by rw [List.eq_of_mem_replicate hf]; exact ⟨by decide, by decide⟩)
    (fun f p => rfl)

/-- With the always-raising crop oracle the conditioning step never changes
the accumulator. -/
theorem condition_step_cropFail (B : Blake2b) (s : List Nat) (i : Nat)
    (acc : List Nat × Bool) (f : ProcessedFrame) :
    condition_step B testCropFail s i acc f = acc := by
  unfold condition_step testCropFail
  split
  · rfl
  · rfl

/-- With the always-raising crop oracle the conditioning fold is the
identity on the accumulator. -/
theorem condition_foldl_cropFail (B : Blake2b) (s : List Nat) (i : Nat) :
    ∀ (frames : List ProcessedFrame) (acc : List Nat × Bool),
      frames.foldl (condition_step B testCropFail s i) acc = acc := by
  intro frames
  induction frames with
  | nil => intro acc; rfl
  | cons f t ih =>
    intro acc
    rw [List.foldl_cons, condition_step_cropFail, ih]

/-- With the always-raising crop oracle no output index produces a block:
`any_chunk` stays false. -/
theorem condition_block_cropFail (B : Blake2b) (s : List Nat)
    (frames : List ProcessedFrame) (t : Nat → List Nat) (i : Nat) :
    condition_block B testCropFail s frames t i = none := by
  unfold condition_block
  rw [condition_foldl_cropFail]
  rfl

/-- A push loop whose every block is undefined leaves the buffer state
untouched. -/
theorem foldl_no_blocks (g : Nat → Option String) (hg : ∀ i, g i = none) :
    ∀ (l : List Nat) (st : BufState),
      l.foldl (fun st i =>
        match g i with
        | some hex => add_to_buffer_and_db st hex
        | none => st) st = st := by
  intro l
  induction l with
  | nil => intro st; rfl
  | cons a tl ih =>
    intro st
    rw [List.foldl_cons]
    have h : (match g a with
        | some hex => add_to_buffer_and_db st hex
        | none => st) = st := by rw [hg a]
    rw [h, ih]

/-- Counterexample to C3 as stated: a round of 100 validated frames (all
200×150, meeting the goal and the dimension minima) in which every frame's
crop/pixel extraction raises pushes *zero* blocks — the `any_chunk` guard
suppresses all 10 — so "exactly 10 blocks" fails without an assumption on
pixel extraction. -/
theorem claim_C3_counterexample :
    NUM_SUCCESSFUL_CAMERAS_GOAL ≤ (List.replicate 100 testFrame).length ∧
    (∀ f ∈ List.replicate 100 testFrame,
      CROP_SIZE.1 ≤ f.width ∧ CROP_SIZE.2 ≤ f.height) ∧
    generate_and_store_numbers testB testCropFail [5]
      (List.replicate 100 testFrame) testTail emptyBuf = emptyBuf ∧
    generated_blocks testB testCropFail [5]
      (List.replicate 100 testFrame) testTail = [] := by
  refine ⟨?_, ?_, ?_, ?_⟩
  · simp [NUM_SUCCESSFUL_CAMERAS_GOAL]
  · intro f hf
    rw [List.eq_of_mem_replicate hf]
    exact ⟨by decide, by decide⟩
  · unfold generate_and_store_numbers
    rw [if_neg (by simp [NUM_SUCCESSFUL_CAMERAS_GOAL])]
    exact foldl_no_blocks
      (condition_block testB testCropFail [5] (List.replicate 100 testFrame) testTail)
      (condition_block_cropFail testB [5] (List.replicate 100 testFrame) testTail)
      (List.range NUM_RANDOMS_PER_FETCH) emptyBuf
  · unfold generated_blocks
    rw [if_neg (by simp [NUM_SUCCESSFUL_CAMERAS_GOAL])]
    exact List.filterMap_eq_nil_iff.mpr
      (fun i _ => condition_block_cropFail testB [5] _ testTail i)

/-- The EOI marker never starts at a zero byte. -/
theorem eoi_not_prefix_zero (x : List Nat) :
    eoiMarker.isPrefixOf (0 :: x) = false := rfl

/-- The SOI marker never starts at a zero byte. -/
theorem soi_not_prefix_zero (x : List Nat) :
    soiMarker.isPrefixOf (0 :: x) = false := rfl

/-- The EOI marker starts exactly at an `FF D9` pair. -/
theorem eoi_prefix_marker (t : List Nat) :
    eoiMarker.isPrefixOf (255 :: 217 :: t) = true := by
  simp [eoiMarker, List.isPrefixOf]

/-- The SOI marker does not start at an `FF D9` pair. -/
theorem soi_not_prefix_eoi (t : List Nat) :
    soiMarker.isPrefixOf (255 :: 217 :: t) = false := rfl

/-- An all-zero buffer holds no EOI marker. -/
theorem findSub_eoi_zeros (n : Nat) :
    findSub eoiMarker (List.replicate n 0) = none := by
  induction n with
  | zero => rfl
  | succ k ih =>
    show findSub eoiMarker (0 :: List.replicate k 0) = none
    simp [findSub, eoi_not_prefix_zero, ih]

/-- An all-zero buffer followed by a lone `FF` holds no EOI marker. -/
theorem findSub_eoi_zeros255 (n : Nat) :
    findSub eoiMarker (List.replicate n 0 ++ [255]) = none := by
  induction n with
  | zero => decide
  | succ k ih =>
    show findSub eoiMarker (0 :: (List.replicate k 0 ++ [255])) = none
    simp [findSub, eoi_not_prefix_zero, ih]

/-- In an all-zero buffer followed by `FF D9 …` the first EOI marker sits
right after the zeros. -/
theorem findSub_eoi_zeros_eoi (n : Nat) (t : List Nat) :
    findSub eoiMarker (List.replicate n 0 ++ 255 :: 217 :: t) = some n := by
  induction n with
  | zero =>
    show findSub eoiMarker (255 :: 217 :: t) = some 0
    simp [findSub, eoi_prefix_marker]
  | succ k ih =>
    show findSub eoiMarker (0 :: (List.replicate k 0 ++ 255 :: 217 :: t)) = some (k + 1)
    simp [findSub, eoi_not_prefix_zero, ih]

/-- An all-zero buffer followed by a bare EOI marker holds no SOI marker. -/
theorem findSub_soi_zeros_eoi (n : Nat) :
    findSub soiMarker (List.replicate n 0 ++ [255, 217]) = none := by
  induction n with
  | zero => decide
  | succ k ih =>
    show findSub soiMarker (0 :: (List.replicate k 0 ++ [255, 217])) = none
    simp [findSub, soi_not_prefix_zero, ih]

/-- A found occurrence fits inside the buffer. -/
theorem findSub_some_bound (pat : List Nat) :
    ∀ (l : List Nat) (i : Nat), findSub pat l = some i →
      i + pat.length ≤ l.length := by
  intro l
  induction l with
  | nil =>
    intro i h
    unfold findSub at h
    split at h
    · next hp =>
      have h0 : i = 0 := by injection h with h; exact h.symm
      subst h0
      have := (List.isPrefixOf_iff_prefix.mp hp).length_le
      simpa using this
    · exact absurd h (by simp)
  | cons a t ih =>
    intro i h
    unfold findSub at h
    split at h
    · next hp =>
      have h0 : i = 0 := by injection h with h; exact h.symm
      subst h0
      simpa using (List.isPrefixOf_iff_prefix.mp hp).length_le
    · next hp =>
      obtain ⟨j, hj, hji⟩ := Option.map_eq_some'.mp h
      have := ih j hj
      subst hji
      simp only [List.length_cons]
      omega

/-- A marker that does not start a buffer it fits inside does not start any
extension of that buffer either. -/
theorem isPrefixOf_append_false (pat l m : List Nat)
    (h : pat.isPrefixOf l = false) (hlen : pat.length ≤ l.length) :
    pat.isPrefixOf (l ++ m) = false := by
  by_contra hc
  have hc' : pat.isPrefixOf (l ++ m) = true := by
    cases hval : pat.isPrefixOf (l ++ m)
    · exact absurd hval hc
    · rfl
  have hpre := List.isPrefixOf_iff_prefix.mp hc'
  have heq := List.prefix_iff_eq_take.mp hpre
  rw [List.take_append_of_le_length hlen] at heq
  have : pat <+: l := heq ▸ List.take_prefix pat.length l
  rw [List.isPrefixOf_iff_prefix.mpr this] at h
  exact absurd h (by simp)

/-- The first occurrence of a pattern survives extending the buffer on the
right, at the same index. -/
theorem findSub_append_some (pat : List Nat) :
    ∀ (l : List Nat) (m : List Nat) (i : Nat), findSub pat l = some i →
      findSub pat (l ++ m) = some i := by
  intro l
  induction l with
  | nil =>
    intro m i h
    unfold findSub at h
    split at h
    · next hp =>
      have hpat : pat = [] := List.prefix_nil.mp (List.isPrefixOf_iff_prefix.mp hp)
      have h0 : i = 0 := by injection h with h; exact h.symm
      subst hpat; subst h0
      cases m with
      | nil => rfl
      | cons a t => rfl
    · exact absurd h (by simp)
  | cons a t ih =>
    intro m i h
    unfold findSub at h
    split at h
    · next hp =>
      have h0 : i = 0 := by injection h with h; exact h.symm
      subst h0
      have hp' : pat.isPrefixOf ((a :: t) ++ m) = true :=
        List.isPrefixOf_iff_prefix.mpr
          ((List.isPrefixOf_iff_prefix.mp hp).trans ((a :: t).prefix_append m))
      have hp'' : pat.isPrefixOf (a :: (t ++ m)) = true := by
        rw [← List.cons_append]; exact hp'
      show findSub pat (a :: (t ++ m)) = some 0
      rw [findSub, hp'']
      simp
    · next hp =>
      obtain ⟨j, hj, hji⟩ := Option.map_eq_some'.mp h
      have hbound := findSub_some_bound pat t j hj
      have hlen : pat.length ≤ (a :: t).length := by
        simp only [List.length_cons]; omega
      have hp2 : pat.isPrefixOf ((a :: t) ++ m) = false := by
        have hpf : pat.isPrefixOf (a :: t) = false := by
          cases hval : pat.isPrefixOf (a :: t)
          · rfl
          · exact absurd hval hp
        exact isPrefixOf_append_false pat (a :: t) m hpf hlen
      have hp2' : pat.isPrefixOf (a :: (t ++ m)) = false := by
        rw [← List.cons_append]; exact hp2
      show findSub pat (a :: (t ++ m)) = some i
      rw [findSub, hp2']
      simp only [Bool.false_eq_true, if_false]
      rw [ih m j hj]
      simp [hji]

/-- `sumLen` distributes over cons. -/
theorem sumLen_cons (c : List Nat) (l : List (List Nat)) :
    sumLen (c :: l) = c.length + sumLen l := by
  simp [sumLen]

/-- Extraction is stable under extending the stream past the first EOI
marker: the truncated frame lies inside the existing buffer. -/
theorem mjpeg_extract_stable (d m : List Nat) (i : Nat)
    (hd : findSub eoiMarker d = some i) :
    mjpeg_extract (d ++ m) = mjpeg_extract d := by
  have hb := findSub_some_bound eoiMarker d i hd
  have hb2 : i + 2 ≤ d.length := by simpa [eoiMarker] using hb
  have ht : (d ++ m).take (i + 2) = d.take (i + 2) :=
    List.take_append_of_le_length hb2
  unfold mjpeg_extract
  rw [hd, findSub_append_some eoiMarker d m i hd]
  simp only [ht]

/-- Extraction succeeds on any stream whose scan finds an EOI marker. -/
theorem mjpeg_extract_isSome (d : List Nat) (i : Nat)
    (hd : findSub eoiMarker d = some i) :
    (mjpeg_extract d).isSome = true := by
  unfold mjpeg_extract
  rw [hd]
  cases hs : findSub soiMarker (d.take (i + 2)) with
  | some j => simp [hs]
  | none => simp [hs]

/-- The scan loop, on a buffer without EOI, computes the spec extraction of
the full stream whenever some chunk-prefix within the byte limit already
contains the EOI marker. -/
theorem mjpeg_loop_extract (chunks : List (List Nat)) :
    ∀ (s : Nat) (data : List Nat),
      findSub eoiMarker data = none →
      (∃ k, s + sumLen (chunks.take k) ≤ MAX_MJPEG_SCAN_BYTES ∧
        (findSub eoiMarker (data ++ (chunks.take k).flatten)).isSome = true) →
      mjpeg_loop chunks s data = mjpeg_extract (data ++ chunks.flatten) ∧
      (mjpeg_extract (data ++ chunks.flatten)).isSome = true := by
  induction chunks with
  | nil =>
    intro s data hnone hex
    obtain ⟨k, _, hfind⟩ := hex
    rw [List.take_nil, List.flatten_nil, List.append_nil] at hfind
    rw [hnone] at hfind
    exact absurd hfind (by simp)
  | cons c rest ih =>
    intro s data hnone hex
    obtain ⟨k, hsum, hfind⟩ := hex
    cases k with
    | zero =>
      rw [List.take_zero, List.flatten_nil, List.append_nil, hnone] at hfind
      exact absurd hfind (by simp)
    | succ k₂ =>
      rw [List.take_succ_cons, sumLen_cons] at hsum
      rw [List.take_succ_cons, List.flatten_cons, ← List.append_assoc] at hfind
      have hif : ¬ (MAX_MJPEG_SCAN_BYTES < s + c.length) := by omega
      have hflat : data ++ (c :: rest).flatten = (data ++ c) ++ rest.flatten := by
        rw [List.flatten_cons, List.append_assoc]
      cases hd : findSub eoiMarker (data ++ c) with
      | some i =>
        rw [hflat, mjpeg_extract_stable (data ++ c) rest.flatten i hd]
        constructor
        · rw [mjpeg_loop, if_neg hif, hd]
          unfold mjpeg_extract
          rw [hd]
        · exact mjpeg_extract_isSome (data ++ c) i hd
      | none =>
        have ih' := ih (s + c.length) (data ++ c) hd ⟨k₂, by omega, hfind⟩
        rw [hflat]
        refine ⟨?_, ih'.2⟩
        rw [mjpeg_loop, if_neg hif, hd]
        exact ih'.1

/-- The scan loop, on a buffer without EOI, fails when no chunk-prefix
within the byte limit contains the EOI marker. -/
theorem mjpeg_loop_none (chunks : List (List Nat)) :
    ∀ (s : Nat) (data : List Nat),
      findSub eoiMarker data = none →
      (∀ k, s + sumLen (chunks.take k) ≤ MAX_MJPEG_SCAN_BYTES →
        findSub eoiMarker (data ++ (chunks.take k).flatten) = none) →
      mjpeg_loop chunks s data = none := by
  induction chunks with
  | nil => intro s data _ _; rfl
  | cons c rest ih =>
    intro s data hnone hall
    by_cases hif : MAX_MJPEG_SCAN_BYTES < s + c.length
    · rw [mjpeg_loop, if_pos hif]
    · have harg : s + sumLen (List.take (0 + 1) (c :: rest)) ≤ MAX_MJPEG_SCAN_BYTES := by
        rw [List.take_succ_cons, List.take_zero, sumLen_cons]
        simp only [sumLen, List.map_nil, List.sum_nil]
        omega
      have hd : findSub eoiMarker (data ++ c) = none := by
        have h1 := hall (0 + 1) harg
        rw [List.take_succ_cons, List.take_zero, List.flatten_cons,
          List.flatten_nil, List.append_nil] at h1
        exact h1
      have hrest : ∀ k, (s + c.length) + sumLen (rest.take k) ≤ MAX_MJPEG_SCAN_BYTES →
          findSub eoiMarker ((data ++ c) ++ (rest.take k).flatten) = none := by
        intro k hk
        have h2 := hall (k + 1) (by rw [List.take_succ_cons, sumLen_cons]; omega)
        rw [List.take_succ_cons, List.flatten_cons, ← List.append_assoc] at h2
        exact h2
      rw [mjpeg_loop, if_neg hif, hd]
      exact ih (s + c.length) (data ++ c) hd hrest

/-- C6 (amended): the first-frame extractor succeeds — returning the stream
truncated two bytes past the first `FF D9`, re-sliced from the first `FF D8`
within that prefix when one is present — exactly when the EOI marker is
already contained in the data accumulated after some chunk at which the
cumulative byte count is still within `MAX_MJPEG_SCAN_BYTES`; when no such
chunk-prefix holds the marker (the limit is crossed first, or the stream
ends) it returns `None`.  (The claim's positional condition "EOI within the
first 2 MiB" is not enough: the limit check runs before the chunk holding
the marker is appended — see the counterexample.) -/
theorem claim_C6_mjpeg_extractor (chunks : List (List Nat)) :
    ((∃ k, sumLen (chunks.take k) ≤ MAX_MJPEG_SCAN_BYTES ∧
        (findSub eoiMarker ((chunks.take k).flatten)).isSome = true) →
      handle_mjpeg_stream chunks = mjpeg_extract chunks.flatten ∧
      (mjpeg_extract chunks.flatten).isSome = true) ∧
    ((∀ k, sumLen (chunks.take k) ≤ MAX_MJPEG_SCAN_BYTES →
        findSub eoiMarker ((chunks.take k).flatten) = none) →
      handle_mjpeg_stream chunks = none) := by
  constructor
  · intro hex
    obtain ⟨k, h1, h2⟩ := hex
    have h := mjpeg_loop_extract chunks 0 [] (by decide)
      ⟨k, by simpa using h1, by simpa using h2⟩
    simpa [handle_mjpeg_stream] using h
  · intro hall
    have h := mjpeg_loop_none chunks 0 [] (by decide)
      (fun k hk => by simpa using hall k (by simpa using hk))
    simpa [handle_mjpeg_stream] using h

/-- Witness for C6 (amended) on a one-chunk stream that is exactly one JPEG
EOI marker: the extractor returns it. -/
theorem claim_C6_mjpeg_extractor_witness :
    (∃ k, sumLen (([[255, 217]] : List (List Nat)).take k) ≤ MAX_MJPEG_SCAN_BYTES ∧
      (findSub eoiMarker ((([[255, 217]] : List (List Nat)).take k).flatten)).isSome = true) ∧
    handle_mjpeg_stream [[255, 217]] =
      mjpeg_extract ([[255, 217]] : List (List Nat)).flatten ∧
    (mjpeg_extract ([[255, 217]] : List (List Nat)).flatten).isSome = true :=
  ⟨⟨1, by decide, by decide⟩,
    (claim_C6_mjpeg_extractor [[255, 217]]).1 ⟨1, by decide, by decide⟩⟩

/-- A run of all-zero 1 KiB chunks only grows the buffer and the byte count
while the count stays within the limit. -/
theorem mjpeg_loop_zero_chunks (restChunks : List (List Nat)) :
    ∀ (k s m : Nat),
      s + 1024 * k ≤ MAX_MJPEG_SCAN_BYTES →
      mjpeg_loop (List.replicate k (List.replicate 1024 0) ++ restChunks) s
          (List.replicate m 0) =
        mjpeg_loop restChunks (s + 1024 * k) (List.replicate (m + 1024 * k) 0) := by
  intro k
  induction k with
  | zero =>
    intro s m _
    simp only [List.replicate_zero, List.nil_append, Nat.mul_zero, Nat.add_zero]
  | succ n ih =>
    intro s m h
    rw [List.replicate_succ, List.cons_append, mjpeg_loop]
    have hlen : (List.replicate 1024 (0 : Nat)).length = 1024 :=
      List.length_replicate 1024 0
    have hif : ¬ (MAX_MJPEG_SCAN_BYTES < s + (List.replicate 1024 (0 : Nat)).length) := by
      rw [hlen]
      have : 1024 * (n + 1) = 1024 * n + 1024 := by ring
      omega
    rw [if_neg hif]
    have hdata : List.replicate m (0 : Nat) ++ List.replicate 1024 0 =
        List.replicate (m + 1024) 0 := (List.replicate_add m 1024 0).symm
    rw [hdata, findSub_eoi_zeros (m + 1024), hlen]
    rw [ih (s + 1024) (m + 1024) (by
      have : 1024 * (n + 1) = 1024 * n + 1024 := by ring
      omega)]
    have e1 : s + 1024 + 1024 * n = s + 1024 * (n + 1) := by ring
    have e2 : m + 1024 + 1024 * n = m + 1024 * (n + 1) := by ring
    rw [e1, e2]

/-- Flattening copies of an all-zero chunk gives one long all-zero list. -/
theorem flatten_replicate_zeros (k c : Nat) :
    (List.replicate k (List.replicate c 0)).flatten = List.replicate (k * c) 0 := by
  induction k with
  | zero => rw [Nat.zero_mul]; rfl
  | succ n ih =>
    rw [List.replicate_succ, List.flatten_cons, ih, ← List.replicate_add]
    have : c + n * c = (n + 1) * c := by ring
    rw [this]

/-- The chunk sequence of the C6 counterexample: 2047 full 1 KiB chunks of
zeros, one 1023-byte chunk ending in `FF` (cumulative 2097151 bytes, still
within the 2 MiB limit, with the EOI marker starting at index 2097150), and
one final 2-byte chunk `D9 00` that completes the marker *within* the first
2 MiB of the stream but pushes the byte count to 2097153. -/
def ceChunks : List (List Nat) :=
  List.replicate 2047 (List.replicate 1024 0) ++
    [List.replicate 1022 0 ++ [255], [217, 0]]

/-- The C6 counterexample stream flattens to zeros, the marker, and one
trailing byte. -/
theorem ceChunks_flatten :
    ceChunks.flatten = List.replicate 2097150 0 ++ 255 :: 217 :: [0] := by
  unfold ceChunks
  rw [List.flatten_append, flatten_replicate_zeros]
  have h1 : (2047 * 1024 : Nat) = 2096128 := by norm_num
  rw [h1]
  show List.replicate 2096128 (0 : Nat) ++
      ((List.replicate 1022 0 ++ [255]) ++ ([217, 0] ++ [])) = _
  rw [List.append_nil, ← List.append_assoc, ← List.append_assoc,
    ← List.replicate_add]
  have h2 : (2096128 + 1022 : Nat) = 2097150 := by norm_num
  rw [h2, List.append_assoc]
  congr 1

/-- Evaluation rule for the spec extraction when the stream holds an EOI
marker and the truncated frame holds no SOI marker. -/
theorem mjpeg_extract_eq_of_finds (s' : List Nat) (i : Nat)
    (h : findSub eoiMarker s' = some i)
    (hsoi : findSub soiMarker (s'.take (i + 2)) = none) :
    mjpeg_extract s' = some (s'.take (i + 2)) := by
  unfold mjpeg_extract
  rw [h]
  simp only [hsoi]

/-- Counterexample to C6 as stated: in `ceChunks` the EOI marker lies fully
inside the first 2 MiB of the stream (first occurrence at index 2097150,
ending at byte 2097151), every chunk is at most 1 KiB, and the extraction
the claim predicts — the accumulated prefix truncated at `marker_index+2`,
with no SOI present — exists; yet the extractor returns `None`, because the
scan-limit check fires on the chunk completing the marker before that chunk
is searched. -/
theorem claim_C6_counterexample :
    handle_mjpeg_stream ceChunks = none ∧
    (∀ c ∈ ceChunks, c.length ≤ 1024) ∧
    findSub eoiMarker ceChunks.flatten = some 2097150 ∧
    2097150 + eoiMarker.length ≤ MAX_MJPEG_SCAN_BYTES ∧
    mjpeg_extract ceChunks.flatten =
      some (List.replicate 2097150 0 ++ [255, 217]) := by
  refine ⟨?_, ?_, ?_, ?_, ?_⟩
  · show mjpeg_loop (List.replicate 2047 (List.replicate 1024 0) ++
      [List.replicate 1022 0 ++ [255], [217, 0]]) 0 (List.replicate 0 0) = none
    rw [mjpeg_loop_zero_chunks _ 2047 0 0
      (by norm_num [MAX_MJPEG_SCAN_BYTES])]
    have e1 : (0 + 1024 * 2047 : Nat) = 2096128 := by norm_num
    rw [e1, mjpeg_loop]
    have hlenA : (List.replicate 1022 (0 : Nat) ++ [255]).length = 1023 := by
      rw [List.length_append, List.length_replicate]
      rfl
    have hifA : ¬ (MAX_MJPEG_SCAN_BYTES <
        2096128 + (List.replicate 1022 (0 : Nat) ++ [255]).length) := by
      rw [hlenA]; norm_num [MAX_MJPEG_SCAN_BYTES]
    rw [if_neg hifA]
    have hd1 : List.replicate 2096128 (0 : Nat) ++ (List.replicate 1022 0 ++ [255]) =
        List.replicate 2097150 0 ++ [255] := by
      rw [← List.append_assoc, ← List.replicate_add]
    rw [hd1, findSub_eoi_zeros255 2097150, hlenA, mjpeg_loop]
    have hifB : MAX_MJPEG_SCAN_BYTES < 2096128 + 1023 + ([217, 0] : List Nat).length := by
      norm_num [MAX_MJPEG_SCAN_BYTES]
    rw [if_pos hifB]
  · intro c hc
    rcases List.mem_append.mp hc with h | h
    · rw [List.eq_of_mem_replicate h, List.length_replicate]
    · rcases List.mem_cons.mp h with rfl | h2
      · rw [List.length_append, List.length_replicate]
        decide
      · rcases List.mem_cons.mp h2 with rfl | h3
        · decide
        · simp at h3
  · rw [ceChunks_flatten]
    exact findSub_eoi_zeros_eoi 2097150 [0]
  · norm_num [MAX_MJPEG_SCAN_BYTES, eoiMarker]
  · rw [ceChunks_flatten]
    have htake : (List.replicate 2097150 (0 : Nat) ++ 255 :: 217 :: [0]).take
        (2097150 + 2) = List.replicate 2097150 0 ++ [255, 217] := by
      rw [List.take_append_eq_append_take,
        List.take_of_length_le (by rw [List.length_replicate]; omega),
        List.length_replicate]
      congr 1
    have hsoi : findSub soiMarker ((List.replicate 2097150 (0 : Nat) ++
        255 :: 217 :: [0]).take (2097150 + 2)) = none := by
      rw [htake]
      exact findSub_soi_zeros_eoi 2097150
    rw [mjpeg_extract_eq_of_finds _ 2097150 (findSub_eoi_zeros_eoi 2097150 [0]) hsoi,
      htake]

end WebcamRng
